import Mathlib

/-!
# VDSM video-summarization platform: verification development

Shallow embedding of the VDSM repository (React/TypeScript frontend plus the
summarization backend described by the repository documentation) together with
proofs of the specification's testable properties.

Frontend code (`frontend/src/...`) is embedded directly from the source.
The Python backend (orchestrator, CLIP selector, FFmpeg composer, REST
endpoints) is not part of the repository snapshot; where a property depends on
it, the relevant operation is modelled from the specification, and each such
definition is marked `Modelled from the spec:` in its doc comment.

Numbers: timestamps, durations, percentages and confidence scores are embedded
as rationals (`ℚ`); byte sizes and progress percentages as naturals (`ℕ`).
-/

namespace VDSM

/-! ## Video upload validation (frontend/src/components/VideoUpload.tsx) -/

/-- Embeds `SUPPORTED_FORMATS` (VideoUpload.tsx line 5). -/
def SUPPORTED_FORMATS : List String := ["mp4", "mov", "wmv", "avi", "mkv", "webm"]

/-- Embeds `MAX_FILE_SIZE = 4 * 1024 * 1024 * 1024` (VideoUpload.tsx line 6), in bytes. -/
def MAX_FILE_SIZE : ℕ := 4 * 1024 * 1024 * 1024

/-- JavaScript `"...".split('.')` on the character list of the name: the
maximal run of components separated by `'.'`; the empty name yields `[[]]`,
and a trailing dot yields a trailing empty component, exactly as in
JavaScript. -/
def splitDot : List Char → List (List Char)
  | [] => [[]]
  | c :: rest =>
    let r := splitDot rest
    if c = '.' then [] :: r
    else (c :: r.headD []) :: r.tail

/-- Embeds the extension computation `file.name.split('.').pop()?.toLowerCase()`
(VideoUpload.tsx line 25).  JavaScript `split` never yields an empty array, so
`pop` returns the last component; for a dot-free name that is the whole name,
and for a name ending in a dot it is the empty string. -/
def jsExtension (name : String) : String :=
  ⟨((splitDot name.data).getLastD []).map Char.toLower⟩

/-- Embeds `validateFile` (VideoUpload.tsx lines 24-33): format check first
(`!ext || !SUPPORTED_FORMATS.includes(ext)`), then the size check
(`file.size > MAX_FILE_SIZE`); `null` (here `none`) means the file is accepted. -/
def validateFile (name : String) (size : ℕ) : Option String :=
  let ext := jsExtension name
  if ext = "" || !(SUPPORTED_FORMATS.contains ext) then
    some "Unsupported video format. Please use MP4, MOV, WMV, AVI, MKV, or WEBM."
  else if size > MAX_FILE_SIZE then
    some "File is too large. Max size is 4GB."
  else
    none

/-! ## Progress polling hook (frontend/src/hooks/useProgress.ts) -/

/-- Embeds the `SummaryProgressResponse` payload consumed by `useProgress`
(fields used at useProgress.ts lines 35-41). -/
structure ProgressResponse where
  status : String
  progress_percent : ℕ
  error_message : Option String
deriving DecidableEq, Repr

/-- Observable state of one `useProgress` hook instance: the last response
stored by `setProgress` (useProgress.ts line 32), counters for the number of
network requests issued and for how many times the `onComplete` / `onError`
callbacks have fired. -/
structure HookState where
  lastStatus : Option String
  requests : ℕ
  completeCalls : ℕ
  errorCalls : ℕ
deriving DecidableEq, Repr

/-- Embeds `fetchProgress` (useProgress.ts lines 24-52) on the success path:
when `enabled` is false it returns immediately (line 25); otherwise it issues
one request, stores the response (line 32), invokes `onComplete` exactly when
the response status is `completed` and an `onComplete` callback was supplied
(lines 35-37), and invokes `onError` exactly when the response status is
`failed`, an `onError` callback was supplied, and the response carries an
`error_message` (lines 40-42).  `hasOnComplete` / `hasOnError` record whether
the optional callbacks were supplied. -/
def fetchProgress (enabled hasOnComplete hasOnError : Bool)
    (s : HookState) (resp : ProgressResponse) : HookState :=
  if !enabled then s
  else
    { lastStatus := some resp.status
      requests := s.requests + 1
      completeCalls :=
        s.completeCalls + (if resp.status = "completed" && hasOnComplete then 1 else 0)
      errorCalls :=
        s.errorCalls +
          (if resp.status = "failed" && hasOnError && !(resp.error_message = none) then 1 else 0) }

/-- Embeds the scheduled poll, i.e. the `setInterval` callback of the polling
effect (useProgress.ts lines 61-65): `fetchProgress` runs only when the last
observed status is `'processing'`; otherwise the tick does nothing. -/
def pollTick (enabled hasOnComplete hasOnError : Bool)
    (s : HookState) (resp : ProgressResponse) : HookState :=
  if s.lastStatus = some "processing" then fetchProgress enabled hasOnComplete hasOnError s resp
  else s

/-- A whole sequence of scheduled polls, each answered by the corresponding
response in `resps`. -/
def pollTicks (enabled hasOnComplete hasOnError : Bool)
    (s : HookState) (resps : List ProgressResponse) : HookState :=
  resps.foldl (pollTick enabled hasOnComplete hasOnError) s

/-! ## Job data model

The `summaries` table (SETUP_GUIDE / `migrations/create_summaries_table.sql`)
documents the status column as `Processing status: processing, completed, or
failed`; the specification additionally names `queued` and `cancelled`
(§3, §4.6).  The orchestrator itself (backend worker) is not part of the
repository snapshot, so its state machine below is modelled from the spec. -/

/-- Job status values named by the specification (§3): the repository's SQL
documentation uses the subset `processing`, `completed`, `failed`. -/
inductive Status where
  | queued
  | processing
  | completed
  | failed
  | cancelled
deriving DecidableEq, Repr

/-- The database string for each status, as stored in `summaries.status`. -/
def Status.toString : Status → String
  | .queued => "queued"
  | .processing => "processing"
  | .completed => "completed"
  | .failed => "failed"
  | .cancelled => "cancelled"

/-- The status vocabulary of the specification (§3). -/
def specStatusStrings : List String :=
  ["queued", "processing", "completed", "failed", "cancelled"]

/-- A status is terminal once it is `completed`, `failed` or `cancelled` (§3, §4.6). -/
def Status.isTerminal : Status → Bool
  | .completed => true
  | .failed => true
  | .cancelled => true
  | _ => false

/-- Orchestrator-visible state of one summary job: its status together with the
`progress_percent` column (`INTEGER DEFAULT 0` in the `summaries` table). -/
structure JobState where
  status : Status
  progress : ℕ
deriving DecidableEq, Repr

/-- Modelled from the spec: the Job Orchestrator state machine (§4.6), whose
implementation (backend worker) is not under the repository snapshot.
`queued → processing` is the only entry into execution; while processing, the
job updates `progress_percent` at stage boundaries (never decreasing, capped at
100); it can then complete, fail (progress frozen at its last checkpoint, §8)
or be cancelled at a stage boundary.  No rule leaves a terminal status. -/
inductive Step : JobState → JobState → Prop where
  | start (p : ℕ) : Step ⟨.queued, p⟩ ⟨.processing, p⟩
  | checkpoint (p q : ℕ) : p ≤ q → q ≤ 100 → Step ⟨.processing, p⟩ ⟨.processing, q⟩
  | complete (p q : ℕ) : p ≤ q → q ≤ 100 → Step ⟨.processing, p⟩ ⟨.completed, q⟩
  | fail (p : ℕ) : Step ⟨.processing, p⟩ ⟨.failed, p⟩
  | cancel (p : ℕ) : Step ⟨.processing, p⟩ ⟨.cancelled, p⟩

/-- Reflexive-transitive reachability along orchestrator steps. -/
def JobReach : JobState → JobState → Prop := Relation.ReflTransGen Step

/-- The state of a job when its record is created: progress 0 (the column
default), waiting for a worker. -/
def initialJob : JobState := ⟨.queued, 0⟩

/-- A job state reachable from creation. -/
def ReachableJob (s : JobState) : Prop := JobReach initialJob s

/-! ## Scenes, intervals and selection

The Scene Selector, Scene Aggregator and the time-range task live in the
backend (`app/services/clip_service.py`, `app/tasks/video_tasks.py` in the
repository documentation), which is not part of the snapshot; the definitions
below are modelled from the specification (§4.4, §8). -/

/-- An absolute time interval of the source video, in seconds. -/
structure Interval where
  start_time : ℚ
  end_time : ℚ
deriving DecidableEq, Repr

/-- A candidate scene produced by the Scene Aggregator (§3): an interval with a
confidence score. -/
structure SceneCandidate where
  start_time : ℚ
  end_time : ℚ
  confidence : ℚ
deriving DecidableEq, Repr

/-- Length of a candidate scene in seconds. -/
def SceneCandidate.duration (c : SceneCandidate) : ℚ := c.end_time - c.start_time

/-- Total duration of a list of scenes. -/
def totalDuration (l : List SceneCandidate) : ℚ := (l.map SceneCandidate.duration).sum

/-- Two scenes do not overlap: one ends before the other starts. -/
def sceneDisjoint (a b : SceneCandidate) : Prop :=
  a.end_time ≤ b.start_time ∨ b.end_time ≤ a.start_time

instance (a b : SceneCandidate) : Decidable (sceneDisjoint a b) := by
  unfold sceneDisjoint; infer_instance

/-- Chronological order on scenes: ascending start time. -/
def startLE (a b : SceneCandidate) : Prop := a.start_time ≤ b.start_time

instance : DecidableRel startLE := fun a b =>
  inferInstanceAs (Decidable (a.start_time ≤ b.start_time))

instance : IsTotal SceneCandidate startLE :=
  ⟨fun a b => le_total a.start_time b.start_time⟩

instance : IsTrans SceneCandidate startLE :=
  ⟨fun _ _ _ h h2 => le_trans h h2⟩

/-- Selection order of budgeted selection (§4.4): confidence descending, ties
broken by earliest start time. -/
def confDescLE (a b : SceneCandidate) : Prop :=
  b.confidence < a.confidence ∨ (a.confidence = b.confidence ∧ a.start_time ≤ b.start_time)

instance (a b : SceneCandidate) : Decidable (confDescLE a b) := by
  unfold confDescLE; infer_instance

/-- Modelled from the spec: the greedy core of budgeted selection (§4.4),
implemented in the backend Scene Selector which is not under the snapshot.
Candidates are visited in selection order; a candidate is skipped when it
overlaps an accepted one, and accepted otherwise, with accept-then-stop budget
semantics: as soon as the accumulated duration `used` reaches the budget `D`,
selection halts, so the admission that crosses the budget is still kept. -/
def greedySelect (D : ℚ) : List SceneCandidate → List SceneCandidate → ℚ → List SceneCandidate
  | [], acc, _ => acc
  | c :: rest, acc, used =>
    if D ≤ used then acc
    else if acc.all (fun a => decide (sceneDisjoint a c)) then
      greedySelect D rest (acc ++ [c]) (used + c.duration)
    else
      greedySelect D rest acc used

/-- Error taxonomy of the specification (§7). -/
inductive JobError where
  | validation (msg : String)
  | resource (msg : String)
  | noMatch (msg : String)
  | compose (msg : String)
deriving DecidableEq, Repr

/-- Modelled from the spec: budgeted selection for text-prompt and category
modes (§4.4).  Candidates below the similarity threshold never enter the
selection; when no candidate clears the threshold the operation fails with a
`NoMatchError` instead of returning an empty list; otherwise the greedy core
runs over the candidates sorted by confidence (ties by start) and the accepted
scenes are returned sorted ascending by start time (§3, §8). -/
def budgetedSelect (tau D : ℚ) (cands : List SceneCandidate) :
    Except JobError (List SceneCandidate) :=
  let matched := cands.filter (fun c => decide (tau ≤ c.confidence))
  if matched.isEmpty then
    .error (.noMatch "no scenes matched the query above the similarity threshold")
  else
    .ok (List.insertionSort startLE
      (greedySelect D (List.insertionSort confDescLE matched) [] 0))

/-! ## Time-range mode -/

/-- A percentage pair of the time-range request payload
(frontend/src/types, used throughout SummaryRequest.tsx). -/
structure TimeRange where
  start_percent : ℚ
  end_percent : ℚ
deriving DecidableEq, Repr

/-- Embeds the clamp applied to a percentage field in `updateTimeRange`
(SummaryRequest.tsx line 122): `Math.max(0, Math.min(100, value))`. -/
def clampPercent (v : ℚ) : ℚ := max 0 (min 100 v)

/-- Clamp an absolute timestamp to `[0, duration]` (§4.4). -/
def clampToDuration (d t : ℚ) : ℚ := max 0 (min d t)

/-- Modelled from the spec: `timestamp = percent/100 * duration`, clamped to
`[0, duration]` (§4.4); the same formula drives the frontend preview
`formatTime` (SummaryRequest.tsx line 128). -/
def percentToSeconds (d p : ℚ) : ℚ := clampToDuration d (p / 100 * d)

/-- Modelled from the spec: direct mapping of each percentage pair to an
absolute interval (§4.4). -/
def mapRanges (d : ℚ) (rs : List TimeRange) : List Interval :=
  rs.map fun r => ⟨percentToSeconds d r.start_percent, percentToSeconds d r.end_percent⟩

/-- Chronological order on intervals. -/
def intervalStartLE (a b : Interval) : Prop := a.start_time ≤ b.start_time

instance : DecidableRel intervalStartLE := fun a b =>
  inferInstanceAs (Decidable (a.start_time ≤ b.start_time))

instance : IsTotal Interval intervalStartLE :=
  ⟨fun a b => le_total a.start_time b.start_time⟩

instance : IsTrans Interval intervalStartLE :=
  ⟨fun _ _ _ h h2 => le_trans h h2⟩

/-- Two intervals do not overlap. -/
def intervalDisjoint (a b : Interval) : Prop :=
  a.end_time ≤ b.start_time ∨ b.end_time ≤ a.start_time

instance (a b : Interval) : Decidable (intervalDisjoint a b) := by
  unfold intervalDisjoint; infer_instance

/-- Modelled from the spec: overlapping input ranges are merged before
composition (§4.4).  The input is expected sorted ascending by start; a range
starting before the previous one ends is folded into it. -/
def mergeIntervals : List Interval → List Interval
  | [] => []
  | [a] => [a]
  | a :: b :: rest =>
    if b.start_time < a.end_time then
      mergeIntervals (⟨a.start_time, max a.end_time b.end_time⟩ :: rest)
    else
      a :: mergeIntervals (b :: rest)
termination_by l => l.length

/-- Result of the time-range task: the composed interval list together with the
number of Embedding Engine invocations performed on the way. -/
structure TimeRangeResult where
  scenes : List Interval
  embedCalls : ℕ
deriving DecidableEq, Repr

/-- Modelled from the spec: the time-range pipeline (`process_time_range_summary`
in the repository documentation): percentage ranges are converted to
timestamps, sorted, de-overlapped and handed to the Composer; the Embedding
Engine and Aggregator are never touched (§4.2, §4.4), hence zero embedding
computations. -/
def runTimeRangePipeline (d : ℚ) (rs : List TimeRange) : TimeRangeResult :=
  { scenes := mergeIntervals (List.insertionSort intervalStartLE (mapRanges d rs))
    embedCalls := 0 }

/-! ## Requests, validation and the job store -/

/-- The three selection modes (§3). -/
inductive SelectionRequest where
  | textPrompt (query : String)
  | category (id : String)
  | timeRanges (ranges : List TimeRange)
deriving DecidableEq, Repr

/-- Modelled from the spec: the fixed category catalog ids; the repository
documentation names six categories (Action, Dialogue, Landscape, People, Text,
Key Moments). -/
def categoryCatalog : List String :=
  ["action", "dialogue", "landscape", "people", "text", "key-moments"]

/-- Upper bound on prompt length, from the frontend prompt textarea
`maxLength=500` (SummaryRequest.tsx line 218). -/
def MAX_PROMPT_LENGTH : ℕ := 500

/-- Modelled from the spec: synchronous request validation (§7): an empty (or
over-long) prompt, a category id outside the fixed catalog, or a time range
whose start is not before its end after clamping, is a `ValidationError`;
`none` means the request is well-formed. -/
def validateRequest (req : SelectionRequest) : Option String :=
  match req with
  | .textPrompt q =>
    if q = "" then some "prompt must not be empty"
    else if q.length > MAX_PROMPT_LENGTH then some "prompt exceeds the length bound"
    else none
  | .category id =>
    if categoryCatalog.contains id then none
    else some "unknown category id"
  | .timeRanges rs =>
    if rs.any (fun r => decide (clampPercent r.end_percent ≤ clampPercent r.start_percent)) then
      some "time range start must be before its end"
    else none

/-- A summary job record (`summaries` table columns used by the core). -/
structure SummaryJob where
  title : String
  request : SelectionRequest
  status : Status
  progress_percent : ℕ
  error_message : Option String
deriving DecidableEq, Repr

/-- The job-status store: records keyed by job id. -/
abbrev SummaryStore := List (String × SummaryJob)

/-- Modelled from the spec: the create-job endpoints
(`POST /videos/.../summaries/...`): a malformed request is rejected
synchronously with a `ValidationError` and no job record is created; otherwise
a fresh record is appended (progress 0, not yet picked up by a worker). -/
def createJob (store : SummaryStore) (id title : String) (req : SelectionRequest) :
    SummaryStore × Except JobError String :=
  match validateRequest req with
  | some msg => (store, .error (.validation msg))
  | none => (store ++ [(id, ⟨title, req, .queued, 0, none⟩)], .ok id)

/-- Modelled from the spec: `DELETE /summaries/id` (§6): removes the job
record and its artifact; deleting an already-absent job is not an error, the
endpoint reports success unconditionally. -/
def deleteJob (store : SummaryStore) (id : String) : SummaryStore × Except JobError Unit :=
  (store.filter (fun p => p.1 ≠ id), .ok ())

/-! ## Helper lemmas -/

lemma sceneDisjoint_symm : Symmetric sceneDisjoint := by
  intro a b h
  exact h.elim Or.inr Or.inl

lemma totalDuration_nil : totalDuration [] = 0 := rfl

lemma totalDuration_append_single (l : List SceneCandidate) (c : SceneCandidate) :
    totalDuration (l ++ [c]) = totalDuration l + c.duration := by
  simp [totalDuration]

lemma totalDuration_perm {l₁ l₂ : List SceneCandidate} (h : l₁.Perm l₂) :
    totalDuration l₁ = totalDuration l₂ :=
  (h.map SceneCandidate.duration).sum_eq

lemma greedySelect_mem (D : ℚ) :
    ∀ (l acc : List SceneCandidate) (used : ℚ) (x : SceneCandidate),
      x ∈ greedySelect D l acc used → x ∈ acc ∨ x ∈ l := by
  intro l
  induction l with
  | nil =>
    intro acc used x hx
    simp only [greedySelect] at hx
    exact Or.inl hx
  | cons c rest ih =>
    intro acc used x hx
    simp only [greedySelect] at hx
    by_cases hD : D ≤ used
    · rw [if_pos hD] at hx
      exact Or.inl hx
    · rw [if_neg hD] at hx
      by_cases hall : (acc.all fun a => decide (sceneDisjoint a c)) = true
      · rw [if_pos hall] at hx
        rcases ih _ _ x hx with hmem | hmem
        · rcases List.mem_append.mp hmem with hmem | hmem
          · exact Or.inl hmem
          · rw [List.mem_singleton] at hmem
            exact Or.inr (hmem ▸ List.mem_cons_self c rest)
        · exact Or.inr (List.mem_cons_of_mem c hmem)
      · rw [if_neg hall] at hx
        rcases ih _ _ x hx with hmem | hmem
        · exact Or.inl hmem
        · exact Or.inr (List.mem_cons_of_mem c hmem)

lemma greedySelect_pairwise (D : ℚ) :
    ∀ (l acc : List SceneCandidate) (used : ℚ),
      acc.Pairwise sceneDisjoint →
      (greedySelect D l acc used).Pairwise sceneDisjoint := by
  intro l
  induction l with
  | nil =>
    intro acc used h
    simpa only [greedySelect] using h
  | cons c rest ih =>
    intro acc used h
    simp only [greedySelect]
    by_cases hD : D ≤ used
    · rw [if_pos hD]; exact h
    · rw [if_neg hD]
      by_cases hall : (acc.all fun a => decide (sceneDisjoint a c)) = true
      · rw [if_pos hall]
        apply ih
        rw [List.pairwise_append]
        refine ⟨h, List.pairwise_singleton _ _, ?_⟩
        intro a ha b hb
        rw [List.mem_singleton] at hb
        subst hb
        exact of_decide_eq_true (List.all_eq_true.mp hall a ha)
      · rw [if_neg hall]
        exact ih acc used h

lemma greedySelect_budget (D : ℚ) :
    ∀ (l acc : List SceneCandidate) (used : ℚ),
      used = totalDuration acc →
      (used ≤ D ∨ ∃ c ∈ acc, used - c.duration < D) →
      (totalDuration (greedySelect D l acc used) ≤ D ∨
        ∃ c ∈ greedySelect D l acc used,
          totalDuration (greedySelect D l acc used) - c.duration < D) := by
  intro l
  induction l with
  | nil =>
    intro acc used heq hinv
    simp only [greedySelect]
    exact heq ▸ hinv
  | cons c rest ih =>
    intro acc used heq hinv
    simp only [greedySelect]
    by_cases hD : D ≤ used
    · rw [if_pos hD]
      exact heq ▸ hinv
    · rw [if_neg hD]
      have hlt : used < D := lt_of_not_le hD
      by_cases hall : (acc.all fun a => decide (sceneDisjoint a c)) = true
      · rw [if_pos hall]
        apply ih
        · rw [totalDuration_append_single, heq]
        · refine Or.inr ⟨c, List.mem_append_right _ (List.mem_singleton_self c), ?_⟩
          have : used + c.duration - c.duration = used := by ring
          rw [this]
          exact hlt
      · rw [if_neg hall]
        exact ih acc used heq (Or.inl hlt.le)

lemma mergeIntervals_lowerBound (l : List Interval) (q : ℚ)
    (hl : ∀ x ∈ l, q ≤ x.start_time) :
    ∀ y ∈ mergeIntervals l, q ≤ y.start_time := by
  match l with
  | [] => simp [mergeIntervals]
  | [a] =>
    intro y hy
    simp only [mergeIntervals, List.mem_singleton] at hy
    exact hy ▸ hl a (List.mem_singleton_self a)
  | a :: b :: rest =>
    simp only [mergeIntervals]
    by_cases h : b.start_time < a.end_time
    · rw [if_pos h]
      refine mergeIntervals_lowerBound _ q ?_
      intro x hx
      rcases List.mem_cons.mp hx with rfl | hx
      · exact hl a (List.mem_cons_self _ _)
      · exact hl x (List.mem_cons_of_mem _ (List.mem_cons_of_mem _ hx))
    · rw [if_neg h]
      intro y hy
      rcases List.mem_cons.mp hy with rfl | hy
      · exact hl y (List.mem_cons_self _ _)
      · exact mergeIntervals_lowerBound (b :: rest) q
          (fun x hx => hl x (List.mem_cons_of_mem _ hx)) y hy
termination_by l.length

lemma mergeIntervals_startEnd (l : List Interval)
    (hl : ∀ x ∈ l, x.start_time ≤ x.end_time) :
    ∀ y ∈ mergeIntervals l, y.start_time ≤ y.end_time := by
  match l with
  | [] => simp [mergeIntervals]
  | [a] =>
    intro y hy
    simp only [mergeIntervals, List.mem_singleton] at hy
    exact hy ▸ hl a (List.mem_singleton_self a)
  | a :: b :: rest =>
    simp only [mergeIntervals]
    by_cases h : b.start_time < a.end_time
    · rw [if_pos h]
      refine mergeIntervals_startEnd _ ?_
      intro x hx
      rcases List.mem_cons.mp hx with rfl | hx
      · exact le_trans (hl a (List.mem_cons_self _ _)) (le_max_left _ _)
      · exact hl x (List.mem_cons_of_mem _ (List.mem_cons_of_mem _ hx))
    · rw [if_neg h]
      intro y hy
      rcases List.mem_cons.mp hy with rfl | hy
      · exact hl y (List.mem_cons_self _ _)
      · exact mergeIntervals_startEnd (b :: rest)
          (fun x hx => hl x (List.mem_cons_of_mem _ hx)) y hy
termination_by l.length

lemma mergeIntervals_chain (l : List Interval)
    (hs : l.Pairwise intervalStartLE) :
    (mergeIntervals l).Pairwise (fun a b => a.end_time ≤ b.start_time) := by
  match l with
  | [] => simp [mergeIntervals]
  | [a] => simp [mergeIntervals]
  | a :: b :: rest =>
    simp only [mergeIntervals]
    rcases List.pairwise_cons.mp hs with ⟨ha, hbrest⟩
    by_cases h : b.start_time < a.end_time
    · rw [if_pos h]
      apply mergeIntervals_chain
      refine List.pairwise_cons.mpr ⟨?_, (List.pairwise_cons.mp hbrest).2⟩
      intro x hx
      exact ha x (List.mem_cons_of_mem _ hx)
    · rw [if_neg h]
      refine List.pairwise_cons.mpr ⟨?_, mergeIntervals_chain (b :: rest) hbrest⟩
      intro y hy
      have hlb : b.start_time ≤ y.start_time := by
        refine mergeIntervals_lowerBound (b :: rest) b.start_time ?_ y hy
        intro x hx
        rcases List.mem_cons.mp hx with rfl | hx
        · exact le_refl _
        · exact (List.pairwise_cons.mp hbrest).1 x hx
      exact le_trans (not_lt.mp h) hlb
termination_by l.length

lemma terminal_no_step {s t : JobState} (h : s.status.isTerminal = true) :
    ¬ Step s t := by
  intro hstep
  cases hstep <;> simp [Status.isTerminal] at h

lemma step_preserves_le100 {s t : JobState} (h : Step s t)
    (hs : s.progress ≤ 100) : t.progress ≤ 100 := by
  cases h with
  | start p => exact hs
  | checkpoint p q h1 h2 => exact h2
  | complete p q h1 h2 => exact h2
  | fail p => exact hs
  | cancel p => exact hs

lemma step_progress_mono {s t : JobState} (h : Step s t) :
    s.progress ≤ t.progress := by
  cases h with
  | start p => exact le_refl p
  | checkpoint p q h1 h2 => exact h1
  | complete p q h1 h2 => exact h1
  | fail p => exact le_refl p
  | cancel p => exact le_refl p

/-! ## Claim theorems -/

/-- Claim C1 — for every SummaryJob, the status field takes only values in
queued, processing, completed, failed, cancelled, and once the status is
completed, failed or cancelled no orchestrator operation changes it again
(terminal states). -/
theorem status_domain_and_terminal :
    (∀ s : JobState, ReachableJob s → s.status.toString ∈ specStatusStrings) ∧
    (∀ s t : JobState, s.status.isTerminal = true → JobReach s t → t = s) := by
  constructor
  · intro s _
    cases s.status <;> simp [Status.toString, specStatusStrings]
  · intro s t hterm hreach
    rcases Relation.ReflTransGen.cases_head hreach with h | ⟨u, hstep, _⟩
    · exact h.symm
    · exact absurd hstep (terminal_no_step hterm)

/-- Witness for C1 at concrete states. -/
theorem status_domain_and_terminal_witness :
    Status.queued.toString ∈ specStatusStrings ∧
    (⟨Status.completed, 100⟩ : JobState) = ⟨Status.completed, 100⟩ :=
  ⟨status_domain_and_terminal.1 initialJob Relation.ReflTransGen.refl,
   status_domain_and_terminal.2 ⟨Status.completed, 100⟩ ⟨Status.completed, 100⟩
     (by decide) Relation.ReflTransGen.refl⟩

/-- Claim C2 — every malformed create-job request (empty prompt in text-prompt
mode, category id outside the fixed catalog, or a time range whose start is ≥
its end after clamping) is rejected synchronously with a ValidationError and
the job store is left unchanged: no job record is created. -/
theorem createJob_rejects_malformed :
    ∀ (store : SummaryStore) (id title : String) (req : SelectionRequest),
      ((∃ q, req = .textPrompt q ∧ q = "") ∨
        (∃ cid, req = .category cid ∧ cid ∉ categoryCatalog) ∨
        (∃ rs r, req = .timeRanges rs ∧ r ∈ rs ∧
          clampPercent r.end_percent ≤ clampPercent r.start_percent)) →
      ∃ msg, createJob store id title req = (store, .error (.validation msg)) := by
  intro store id title req hbad
  rcases hbad with ⟨q, rfl, rfl⟩ | ⟨cid, rfl, hcid⟩ | ⟨rs, r, rfl, hr, hle⟩
  · exact ⟨"prompt must not be empty", by simp [createJob, validateRequest]⟩
  · refine ⟨"unknown category id", ?_⟩
    simp [createJob, validateRequest, hcid]
  · refine ⟨"time range start must be before its end", ?_⟩
    have ha : (rs.any fun x =>
        decide (clampPercent x.end_percent ≤ clampPercent x.start_percent)) = true :=
      List.any_eq_true.mpr ⟨r, hr, decide_eq_true hle⟩
    simp [createJob, validateRequest, ha]

/-- Witness for C2: an empty text prompt against an empty store. -/
theorem createJob_rejects_malformed_witness :
    ∃ msg, createJob ([] : SummaryStore) "job-1" "My summary"
        (SelectionRequest.textPrompt "") = ([], .error (.validation msg)) :=
  createJob_rejects_malformed [] "job-1" "My summary" (SelectionRequest.textPrompt "")
    (Or.inl ⟨"", rfl, rfl⟩)

/-- Claim C3 — in time-range mode on a source of duration d, every percentage
pair maps to the absolute interval given by percent/100 × d clamped to [0, d];
the ranges (0,25),(50,75) on a 100-second video yield exactly the intervals
[0s,25s] and [50s,75s]; and the pipeline performs zero embedding computations. -/
theorem timeRange_direct_mapping :
    (∀ (d : ℚ) (rs : List TimeRange) (r : TimeRange), r ∈ rs →
        (⟨percentToSeconds d r.start_percent, percentToSeconds d r.end_percent⟩ : Interval)
          ∈ mapRanges d rs) ∧
    (∀ (d : ℚ) (rs : List TimeRange), 0 ≤ d → ∀ i ∈ mapRanges d rs,
        0 ≤ i.start_time ∧ i.start_time ≤ d ∧ 0 ≤ i.end_time ∧ i.end_time ≤ d) ∧
    (runTimeRangePipeline 100 [⟨0, 25⟩, ⟨50, 75⟩]).scenes = [⟨0, 25⟩, ⟨50, 75⟩] ∧
    (∀ (d : ℚ) (rs : List TimeRange), (runTimeRangePipeline d rs).embedCalls = 0) := by
  refine ⟨?_, ?_, ?_, fun d rs => rfl⟩
  · intro d rs r hr
    exact List.mem_map.mpr ⟨r, hr, rfl⟩
  · intro d rs hd i hi
    rcases List.mem_map.mp hi with ⟨r, hr, rfl⟩
    simp only [percentToSeconds, clampToDuration]
    exact ⟨le_max_left _ _, max_le hd (min_le_left _ _),
      le_max_left _ _, max_le hd (min_le_left _ _)⟩
  · norm_num [runTimeRangePipeline, mapRanges, percentToSeconds, clampToDuration,
      List.insertionSort, List.orderedInsert, intervalStartLE, mergeIntervals]

/-- Witness for C3 at a concrete range list. -/
theorem timeRange_direct_mapping_witness :
    (0 ≤ (⟨0, 25⟩ : Interval).start_time ∧ (⟨0, 25⟩ : Interval).start_time ≤ 100 ∧
      0 ≤ (⟨0, 25⟩ : Interval).end_time ∧ (⟨0, 25⟩ : Interval).end_time ≤ 100) ∧
    (⟨percentToSeconds 100 50, percentToSeconds 100 75⟩ : Interval)
      ∈ mapRanges 100 [⟨0, 25⟩, ⟨50, 75⟩] :=
  ⟨timeRange_direct_mapping.2.1 100 [⟨0, 25⟩, ⟨50, 75⟩] (by norm_num) ⟨0, 25⟩
      (by norm_num [mapRanges, percentToSeconds, clampToDuration]),
   timeRange_direct_mapping.1 100 [⟨0, 25⟩, ⟨50, 75⟩] ⟨50, 75⟩ (by norm_num)⟩

/-- Claim C4 — budgeted selection returns only candidates whose confidence
clears the threshold, and its total selected duration is at most the target
budget D plus the length of one admitted-but-overflowing candidate: either the
total is within D, or some selected candidate c overflows it with the total
before c strictly below D. -/
theorem budgeted_selection_bounds :
    ∀ (cands : List SceneCandidate) (tau D : ℚ) (sel : List SceneCandidate),
      0 ≤ D →
      budgetedSelect tau D cands = .ok sel →
      (∀ c ∈ sel, tau ≤ c.confidence) ∧
      (totalDuration sel ≤ D ∨
        ∃ c ∈ sel, totalDuration sel ≤ D + c.duration ∧
          totalDuration sel - c.duration < D) := by
  intro cands tau D sel hD hok
  by_cases hempty : (cands.filter fun c => decide (tau ≤ c.confidence)).isEmpty
  · simp [budgetedSelect, hempty] at hok
  · have hok2 : List.insertionSort startLE
        (greedySelect D (List.insertionSort confDescLE
          (cands.filter fun c => decide (tau ≤ c.confidence))) [] 0) = sel := by
      simpa [budgetedSelect, hempty] using hok
    have hperm : sel.Perm (greedySelect D (List.insertionSort confDescLE
        (cands.filter fun c => decide (tau ≤ c.confidence))) [] 0) :=
      hok2 ▸ List.perm_insertionSort startLE _
    constructor
    · intro c hc
      rcases greedySelect_mem D _ _ _ c (hperm.subset hc) with h0 | h1
      · exact absurd h0 (List.not_mem_nil c)
      · have hcm := (List.perm_insertionSort confDescLE _).subset h1
        exact of_decide_eq_true (List.mem_filter.mp hcm).2
    · have hbud := greedySelect_budget D (List.insertionSort confDescLE
        (cands.filter fun c => decide (tau ≤ c.confidence))) [] 0
        (by simp [totalDuration]) (Or.inl hD)
      have htot := totalDuration_perm hperm
      rcases hbud with h | ⟨c, hcg, hlt⟩
      · exact Or.inl (htot ▸ h)
      · refine Or.inr ⟨c, hperm.mem_iff.mpr hcg, ?_, ?_⟩
        · rw [htot]; linarith
        · rw [htot]; exact hlt

/-- Witness for C4: the spec scenario of §8 — a 10s scene at confidence 0.9 and
a 5s scene at 0.4 against threshold 0.5 and budget 60. -/
theorem budgeted_selection_bounds_witness :
    (∀ c ∈ [(⟨0, 10, 9/10⟩ : SceneCandidate)], (1:ℚ)/2 ≤ c.confidence) ∧
    (totalDuration [(⟨0, 10, 9/10⟩ : SceneCandidate)] ≤ 60 ∨
      ∃ c ∈ [(⟨0, 10, 9/10⟩ : SceneCandidate)],
        totalDuration [(⟨0, 10, 9/10⟩ : SceneCandidate)] ≤ 60 + c.duration ∧
        totalDuration [(⟨0, 10, 9/10⟩ : SceneCandidate)] - c.duration < 60) :=
  budgeted_selection_bounds [⟨0, 10, 9/10⟩, ⟨20, 25, 4/10⟩] ((1:ℚ)/2) 60
    [⟨0, 10, 9/10⟩] (by norm_num)
    (by norm_num [budgetedSelect, greedySelect, List.insertionSort, List.orderedInsert,
      confDescLE, sceneDisjoint, startLE, SceneCandidate.duration])

/-- Claim C5 — when zero scene candidates clear the similarity threshold,
budgeted selection fails with a NoMatchError rather than returning an empty
result, and the NoMatch error kind is distinct from a resource failure. -/
theorem noMatch_on_zero_candidates :
    ∀ (cands : List SceneCandidate) (tau D : ℚ),
      (∀ c ∈ cands, c.confidence < tau) →
      budgetedSelect tau D cands =
        .error (.noMatch "no scenes matched the query above the similarity threshold") ∧
      (∀ sel, budgetedSelect tau D cands ≠ .ok sel) ∧
      (∀ m₁ m₂, JobError.noMatch m₁ ≠ JobError.resource m₂) := by
  intro cands tau D hall
  have hfilter : (cands.filter fun c => decide (tau ≤ c.confidence)) = [] := by
    rw [List.filter_eq_nil_iff]
    intro a ha
    simp only [decide_eq_true_eq]
    exact not_le.mpr (hall a ha)
  have hsel : budgetedSelect tau D cands =
      .error (.noMatch "no scenes matched the query above the similarity threshold") := by
    simp [budgetedSelect, hfilter]
  refine ⟨hsel, fun sel h => ?_, fun m₁ m₂ h => JobError.noConfusion h⟩
  rw [hsel] at h
  exact Except.noConfusion h

/-- Witness for C5: one candidate below the threshold. -/
theorem noMatch_on_zero_candidates_witness :
    budgetedSelect 1 60 [(⟨0, 10, 0⟩ : SceneCandidate)] =
      .error (.noMatch "no scenes matched the query above the similarity threshold") :=
  (noMatch_on_zero_candidates [⟨0, 10, 0⟩] 1 60
    (by intro c hc; rw [List.mem_singleton] at hc; subst hc; norm_num)).1

/-- Claim C6 — every selected-scenes list produced by either selection mode is
sorted ascending by start time and pairwise non-overlapping. -/
theorem selected_scenes_sorted_disjoint :
    (∀ (cands : List SceneCandidate) (tau D : ℚ) (sel : List SceneCandidate),
        budgetedSelect tau D cands = .ok sel →
        sel.Pairwise startLE ∧ sel.Pairwise sceneDisjoint) ∧
    (∀ (d : ℚ) (rs : List TimeRange),
        (∀ i ∈ mapRanges d rs, i.start_time ≤ i.end_time) →
        (runTimeRangePipeline d rs).scenes.Pairwise intervalStartLE ∧
        (runTimeRangePipeline d rs).scenes.Pairwise intervalDisjoint) := by
  constructor
  · intro cands tau D sel hok
    by_cases hempty : (cands.filter fun c => decide (tau ≤ c.confidence)).isEmpty
    · simp [budgetedSelect, hempty] at hok
    · have hok2 : List.insertionSort startLE
          (greedySelect D (List.insertionSort confDescLE
            (cands.filter fun c => decide (tau ≤ c.confidence))) [] 0) = sel := by
        simpa [budgetedSelect, hempty] using hok
      rw [← hok2]
      constructor
      · exact List.sorted_insertionSort startLE _
      · have hg := greedySelect_pairwise D (List.insertionSort confDescLE
          (cands.filter fun c => decide (tau ≤ c.confidence))) [] 0 List.Pairwise.nil
        exact ((List.perm_insertionSort startLE _).pairwise_iff
          (fun h => sceneDisjoint_symm h)).mpr hg
  · intro d rs hse
    simp only [runTimeRangePipeline]
    have hsorted : (List.insertionSort intervalStartLE (mapRanges d rs)).Pairwise
        intervalStartLE := List.sorted_insertionSort intervalStartLE _
    have hse2 : ∀ x ∈ List.insertionSort intervalStartLE (mapRanges d rs),
        x.start_time ≤ x.end_time :=
      fun x hx => hse x ((List.perm_insertionSort intervalStartLE _).subset hx)
    have hchain := mergeIntervals_chain _ hsorted
    have hout := mergeIntervals_startEnd _ hse2
    constructor
    · refine List.Pairwise.imp_of_mem ?_ hchain
      intro a b ha hb hab
      exact le_trans (hout a ha) hab
    · exact hchain.imp (fun hab => Or.inl hab)

/-- Witness for C6: a concrete budgeted selection and a concrete pair of
overlapping time ranges. -/
theorem selected_scenes_sorted_disjoint_witness :
    (([(⟨0, 10, 9/10⟩ : SceneCandidate)]).Pairwise startLE ∧
      ([(⟨0, 10, 9/10⟩ : SceneCandidate)]).Pairwise sceneDisjoint) ∧
    ((runTimeRangePipeline 100 [⟨50, 75⟩, ⟨0, 60⟩]).scenes.Pairwise intervalStartLE ∧
      (runTimeRangePipeline 100 [⟨50, 75⟩, ⟨0, 60⟩]).scenes.Pairwise intervalDisjoint) :=
  ⟨selected_scenes_sorted_disjoint.1 [⟨0, 10, 9/10⟩, ⟨20, 25, 4/10⟩] ((1:ℚ)/2) 60
      [⟨0, 10, 9/10⟩]
      (by norm_num [budgetedSelect, greedySelect, List.insertionSort, List.orderedInsert,
        confDescLE, sceneDisjoint, startLE, SceneCandidate.duration]),
   selected_scenes_sorted_disjoint.2 100 [⟨50, 75⟩, ⟨0, 60⟩]
      (by norm_num [mapRanges, percentToSeconds, clampToDuration])⟩

/-- Claim C7 — deleting a job is idempotent: the endpoint always reports
success, a second delete of the same id returns success and leaves the store
exactly as the first left it, the record is gone afterwards, and deleting an
absent job succeeds without touching the store. -/
theorem deleteJob_idempotent :
    ∀ (store : SummaryStore) (id : String),
      (deleteJob store id).2 = .ok () ∧
      deleteJob (deleteJob store id).1 id = ((deleteJob store id).1, .ok ()) ∧
      (∀ job : SummaryJob, (id, job) ∉ (deleteJob store id).1) ∧
      ((∀ job : SummaryJob, (id, job) ∉ store) → deleteJob store id = (store, .ok ())) := by
  intro store id
  refine ⟨rfl, ?_, ?_, ?_⟩
  · simp only [deleteJob, Prod.mk.injEq]
    refine ⟨List.filter_eq_self.mpr ?_, trivial⟩
    intro a ha
    exact (List.mem_filter.mp ha).2
  · intro job hmem
    have h := (List.mem_filter.mp hmem).2
    simp at h
  · intro habs
    have hf : store.filter (fun p => p.1 ≠ id) = store := by
      refine List.filter_eq_self.mpr ?_
      intro a ha
      refine decide_eq_true ?_
      intro heq
      exact habs a.2 (by rw [← heq, Prod.mk.eta]; exact ha)
    simp only [deleteJob]
    rw [hf]

/-- Witness for C7: deleting from an empty store. -/
theorem deleteJob_idempotent_witness :
    deleteJob ([] : SummaryStore) "job-1" = ([], .ok ()) :=
  (deleteJob_idempotent [] "job-1").2.2.2 (fun _ h => absurd h (List.not_mem_nil _))

/-- Claim C8 — progress_percent of a job stays within [0, 100] along every
orchestrator run (it is a natural number, so the lower bound is intrinsic) and
never decreases across any orchestrator step. -/
theorem progress_bounded_monotone :
    (∀ s : JobState, ReachableJob s → s.progress ≤ 100) ∧
    (∀ s t : JobState, Step s t → s.progress ≤ t.progress) := by
  constructor
  · intro s hs
    unfold ReachableJob JobReach at hs
    induction hs with
    | refl => decide
    | tail hab hbc ih => exact step_preserves_le100 hbc ih
  · intro s t h
    exact step_progress_mono h

/-- Witness for C8 at the initial job and a concrete checkpoint step. -/
theorem progress_bounded_monotone_witness :
    initialJob.progress ≤ 100 ∧
    (⟨Status.processing, 10⟩ : JobState).progress ≤
      (⟨Status.processing, 50⟩ : JobState).progress :=
  ⟨progress_bounded_monotone.1 initialJob Relation.ReflTransGen.refl,
   progress_bounded_monotone.2 ⟨Status.processing, 10⟩ ⟨Status.processing, 50⟩
     (Step.checkpoint 10 50 (by norm_num) (by norm_num))⟩

/-- Claim C9 — in the useProgress hook, a scheduled poll issues a network
request only while the last observed status is processing; once completed or
failed has been observed, any sequence of later scheduled polls leaves the
hook state untouched; and one observed response invokes onComplete (resp.
onError) at most once, and only for a completed (resp. failed) response. -/
theorem useProgress_poll_only_processing :
    (∀ (e hc he : Bool) (s : HookState) (resp : ProgressResponse),
        (pollTick e hc he s resp).requests ≠ s.requests →
        s.lastStatus = some "processing") ∧
    (∀ (e hc he : Bool) (s : HookState) (resps : List ProgressResponse),
        s.lastStatus = some "completed" ∨ s.lastStatus = some "failed" →
        pollTicks e hc he s resps = s) ∧
    (∀ (e hc he : Bool) (s : HookState) (resp : ProgressResponse),
        (fetchProgress e hc he s resp).completeCalls ≤ s.completeCalls + 1 ∧
        (fetchProgress e hc he s resp).errorCalls ≤ s.errorCalls + 1 ∧
        ((fetchProgress e hc he s resp).completeCalls ≠ s.completeCalls →
          resp.status = "completed") ∧
        ((fetchProgress e hc he s resp).errorCalls ≠ s.errorCalls →
          resp.status = "failed")) := by
  refine ⟨?_, ?_, ?_⟩
  · intro e hc he s resp hne
    by_cases h : s.lastStatus = some "processing"
    · exact h
    · exact absurd (by simp [pollTick, h]) hne
  · intro e hc he s resps hterm
    have htick : ∀ resp, pollTick e hc he s resp = s := by
      intro resp
      rcases hterm with h | h <;>
        · rw [pollTick, if_neg]
          rw [h]
          intro hcontra
          exact absurd (Option.some.inj hcontra) (by decide)
    induction resps with
    | nil => rfl
    | cons r rest ih =>
      show pollTicks e hc he (pollTick e hc he s r) rest = s
      rw [htick r]
      exact ih
  · intro e hc he s resp
    cases e with
    | false => simp [fetchProgress]
    | true =>
      refine ⟨?_, ?_, ?_, ?_⟩
      · simp only [fetchProgress, Bool.not_true, Bool.false_eq_true, if_false]
        split <;> omega
      · simp only [fetchProgress, Bool.not_true, Bool.false_eq_true, if_false]
        split <;> omega
      · intro hne
        by_cases hst : resp.status = "completed"
        · exact hst
        · exact absurd (by simp [fetchProgress, hst]) hne
      · intro hne
        by_cases hst : resp.status = "failed"
        · exact hst
        · exact absurd (by simp [fetchProgress, hst]) hne

/-- Witness for C9: a hook that has observed completed ignores later polls. -/
theorem useProgress_poll_only_processing_witness :
    pollTicks true true true ⟨some "completed", 5, 1, 0⟩
      [⟨"processing", 10, none⟩, ⟨"failed", 10, some "boom"⟩] =
      ⟨some "completed", 5, 1, 0⟩ :=
  useProgress_poll_only_processing.2.1 true true true ⟨some "completed", 5, 1, 0⟩
    [⟨"processing", 10, none⟩, ⟨"failed", 10, some "boom"⟩] (Or.inl rfl)

/-- Claim C10 — validateFile accepts (returns null) exactly when the file
name's lower-cased extension — the last dot-separated component, as computed
by split-pop — is a supported format and the size is at most 4 GiB; the
unsupported-format error takes precedence over the too-large error; and a file
of exactly 4 GiB is accepted. -/
theorem validateFile_spec :
    (∀ (name : String) (size : ℕ),
        validateFile name size = none ↔
          jsExtension name ∈ SUPPORTED_FORMATS ∧ size ≤ MAX_FILE_SIZE) ∧
    (∀ (name : String) (size : ℕ), jsExtension name ∉ SUPPORTED_FORMATS →
        validateFile name size =
          some "Unsupported video format. Please use MP4, MOV, WMV, AVI, MKV, or WEBM.") ∧
    (∀ (name : String) (size : ℕ), jsExtension name ∈ SUPPORTED_FORMATS →
        MAX_FILE_SIZE < size →
        validateFile name size = some "File is too large. Max size is 4GB.") ∧
    validateFile "highlights.mp4" MAX_FILE_SIZE = none := by
  have key : ∀ (name : String) (size : ℕ),
      validateFile name size =
        if jsExtension name ∈ SUPPORTED_FORMATS then
          (if MAX_FILE_SIZE < size then some "File is too large. Max size is 4GB." else none)
        else
          some "Unsupported video format. Please use MP4, MOV, WMV, AVI, MKV, or WEBM." := by
    intro name size
    by_cases h : jsExtension name ∈ SUPPORTED_FORMATS
    · have h1 : jsExtension name ≠ "" := by
        intro he
        rw [he] at h
        exact absurd h (by decide)
      have h2 : SUPPORTED_FORMATS.contains (jsExtension name) = true := by
        simpa [List.contains, List.elem_iff] using h
      simp [validateFile, h, h1, h2]
    · have h2 : SUPPORTED_FORMATS.contains (jsExtension name) = false := by
        simpa [List.contains, List.elem_iff] using h
      rw [if_neg h]
      by_cases h1 : jsExtension name = "" <;> simp [validateFile, h, h1, h2]
  refine ⟨?_, ?_, ?_, ?_⟩
  · intro name size
    rw [key]
    by_cases h : jsExtension name ∈ SUPPORTED_FORMATS <;> by_cases hs : MAX_FILE_SIZE < size
    all_goals simp [h, hs]
    all_goals omega
  · intro name size h
    rw [key, if_neg h]
  · intro name size h hs
    rw [key, if_pos h, if_pos hs]
  · rw [key, if_pos (by decide), if_neg (lt_irrefl _)]

/-- Witness for C10: a text file is rejected for its format regardless of
size, and an oversized video is rejected for its size. -/
theorem validateFile_spec_witness :
    validateFile "notes.txt" 10 =
      some "Unsupported video format. Please use MP4, MOV, WMV, AVI, MKV, or WEBM." ∧
    validateFile "movie.mkv" (MAX_FILE_SIZE + 1) =
      some "File is too large. Max size is 4GB." :=
  ⟨validateFile_spec.2.1 "notes.txt" 10 (by decide),
   validateFile_spec.2.2.1 "movie.mkv" (MAX_FILE_SIZE + 1) (by decide)
     (Nat.lt_succ_self MAX_FILE_SIZE)⟩

end VDSM
